import Mathlib

/-
Verification of src/main.py (browser-automation glue script).

Shallow embedding notes:
* A pandas DataFrame as produced by pd.read_excel is modelled as a list of
  column names plus row-major cell lists; a cell is `Option String`, where
  `none` models a NaN cell (pd.isna) and `some s` models the cell whose
  str() is `s`.  pd.read_excel always produces a RangeIndex, so the index
  of the i-th row is the natural number i.
* A missing spreadsheet file is modelled by passing `none` for the file
  content: pd.read_excel raises FileNotFoundError there (Err.fileNotFound).
* Python str.strip / str.lower are modelled character-wise over the
  string's character list (ASCII case folding, which is what the script's
  inputs use).
* Python dict insertion order with overwriting is modelled by prepending
  entries while folding over the rows and looking up with List.lookup,
  which returns the most recently inserted binding.
* The ValueError raised for missing required columns is the spec's
  ConfigurationError; it is Err.configurationError here.
-/

/-- A spreadsheet cell: `none` is a NaN cell, `some s` a cell rendering as `s`. -/
abbrev Cell := Option String

/-- Model of a pandas DataFrame read from an Excel file (main.py reads with
pd.read_excel, so rows are indexed 0,1,2,... in order). -/
structure DataFrame where
  cols : List String
  rows : List (List Cell)
  deriving Repr, DecidableEq

/-- Errors surfaced by the script: ValueError for missing columns
(ConfigurationError in the spec) and FileNotFoundError from pd.read_excel. -/
inductive Err where
  | configurationError
  | fileNotFound
  deriving Repr, DecidableEq

/-- Python str.strip(): remove leading and trailing whitespace. -/
def pyStrip (s : String) : String :=
  (((s.data.dropWhile Char.isWhitespace).reverse.dropWhile Char.isWhitespace).reverse).asString

/-- Python str.lower() on the script's ASCII inputs. -/
def pyLower (s : String) : String :=
  (s.data.map Char.toLower).asString

/-- main.py lines 137-138: `_normalize_key(value) = value.strip().lower()`. -/
def _normalize_key (value : String) : String :=
  pyLower (pyStrip value)

/-- Position of a column label in the column list (first occurrence, as
pandas label lookup resolves it). -/
def colIndex : List String → String → Option Nat
  | [], _ => none
  | c :: cs, t => if c = t then some 0 else (colIndex cs t).map (fun n => n + 1)

/-- Value of `row[column]` during df.iterrows(): the cell at the column's
position, NaN when the row is ragged. -/
def rowCell (cols : List String) (r : List Cell) (c : String) : Cell :=
  match colIndex cols c with
  | none => none
  | some p =>
    match r.get? p with
    | none => none
    | some cell => cell

/-- Rendering of a possibly-NaN cell the way main.py does:
`"" if pd.isna(v) else str(v)`. -/
def cellText : Cell → String
  | none => ""
  | some s => s

/-- Model of pd.read_excel: the file content when present, FileNotFoundError
when the file is absent. -/
def pdReadExcel (file : Option DataFrame) : Except Err DataFrame :=
  match file with
  | none => Except.error Err.fileNotFound
  | some df => Except.ok df

/-- main.py lines 141-159, build_link_map: read the link workbook, fail when a
required column is missing, then fold the rows into a lookup from normalized
group name to domain string, skipping NaN names and rendering NaN domains as
the empty string.  Later rows overwrite earlier ones, as dict assignment does;
prepending entries makes List.lookup return the latest binding. -/
def build_link_map (link_excel_file : Option DataFrame) (name_column domain_column : String) :
    Except Err (List (String × String)) :=
  match pdReadExcel link_excel_file with
  | Except.error e => Except.error e
  | Except.ok df =>
    if name_column ∉ df.cols ∨ domain_column ∉ df.cols then
      Except.error Err.configurationError
    else
      Except.ok (df.rows.foldl (fun acc r =>
        match rowCell df.cols r name_column with
        | none => acc
        | some raw => (_normalize_key raw, cellText (rowCell df.cols r domain_column)) :: acc) [])

/-- Python str.split(sep) over character lists: scan left to right, cut at
each non-overlapping occurrence of `sep`.  The fuel argument only bounds the
recursion; `length + 1` fuel always suffices because every step consumes at
least one character.  Python raises for an empty separator; the script's
delimiter comes from --link-delimiter (default ","), and an empty separator
here simply never matches. -/
def pySplitAux (sep : List Char) : Nat → List Char → List Char → List (List Char)
  | 0, acc, rest => [acc.reverse ++ rest]
  | _ + 1, acc, [] => [acc.reverse]
  | fuel + 1, acc, c :: cs =>
    if sep ≠ [] ∧ sep.isPrefixOf (c :: cs) then
      acc.reverse :: pySplitAux sep fuel [] (List.drop sep.length (c :: cs))
    else
      pySplitAux sep fuel (c :: acc) cs

/-- Python str.split(sep). -/
def pySplit (s : String) (sep : String) : List String :=
  (pySplitAux sep.data (s.data.length + 1) [] s.data).map List.asString

/-- main.py line 197: the non-empty stripped group names obtained by splitting
the second-column text by the delimiter
(`[g.strip() for g in s.split(d) if g.strip()]`). -/
def groupsOf (s : String) (delim : String) : List String :=
  ((pySplit s delim).map pyStrip).filter (fun g => g ≠ "")

/-- main.py lines 203-204: `link_map.get(_normalize_key(group))`, falling back
to the raw group name when the key is unmapped. -/
def resolveGroup (m : List (String × String)) (group : String) : String :=
  match m.lookup (_normalize_key group) with
  | some v => v
  | none => group

/-- main.py lines 183-204, the body of the row loop of read_excel_rows: the
tuples the generator yields for one source row with index `idx`. -/
def rowTuples (cols : List String) (first_column second_column : String)
    (link_map : Option (List (String × String))) (split_delimiter : String)
    (idx : Nat) (r : List Cell) : List (Nat × String × String) :=
  let first_text := cellText (rowCell cols r first_column)
  match link_map with
  | none => [(idx, first_text, cellText (rowCell cols r second_column))]
  | some m =>
    match rowCell cols r second_column with
    | none => [(idx, first_text, "")]
    | some s =>
      let groups := groupsOf s split_delimiter
      if groups = [] then [(idx, first_text, s)]
      else groups.map (fun g => (idx, first_text, resolveGroup m g))

/-- The row loop of read_excel_rows, carrying the running RangeIndex value. -/
def readRowsAux (cols : List String) (c1 c2 : String)
    (lm : Option (List (String × String))) (d : String) :
    Nat → List (List Cell) → List (Nat × String × String)
  | _, [] => []
  | idx, r :: rs =>
    rowTuples cols c1 c2 lm d idx r ++ readRowsAux cols c1 c2 lm d (idx + 1) rs

/-- main.py lines 162-204, read_excel_rows: read the workbook, fail with the
missing-columns ValueError (ConfigurationError) when a required column is
absent, otherwise the list of (index, first, second) tuples the generator
yields, in order. -/
def read_excel_rows (excel_file : Option DataFrame) (first_column second_column : String)
    (link_map : Option (List (String × String))) (split_delimiter : String) :
    Except Err (List (Nat × String × String)) :=
  match pdReadExcel excel_file with
  | Except.error e => Except.error e
  | Except.ok df =>
    if first_column ∉ df.cols ∨ second_column ∉ df.cols then
      Except.error Err.configurationError
    else
      Except.ok (readRowsAux df.cols first_column second_column link_map split_delimiter 0 df.rows)

/-- Browser interactions main.py performs after the row generator is first
requested (main.py lines 447-456): one fill_fields call per yielded tuple.
The page load (driver.get, line 419) happens before the rows are requested
and is not part of this phase. -/
inductive BrowserEvent where
  | fillFields (first_value second_value : String)
  deriving Repr, DecidableEq

/-- main.py lines 447-456: the submission loop over read_excel_rows.  Because
read_excel_rows is a generator, its column check runs at the first next();
that first request happens before any fill_fields call, so a missing column
produces the error with no browser events emitted in this phase. -/
def submitPhase (excel_file : Option DataFrame) (c1 c2 : String)
    (lm : Option (List (String × String))) (d : String) :
    List BrowserEvent × Option Err :=
  match read_excel_rows excel_file c1 c2 lm d with
  | Except.error e => ([], some e)
  | Except.ok rows => (rows.map (fun t => BrowserEvent.fillFields t.2.1 t.2.2), none)

/-- main.py lines 441-443: `if args.link_excel_path: link_map = build_link_map(...)`.
The argparse default for --link-excel-path is Path("input/links.xlsx") and a
Path object is always truthy, so whenever parse_args runs the guard is taken;
`link_excel_path_set` models the guard's truth value. -/
def loadLinkMapStep (link_excel_path_set : Bool) (link_file : Option DataFrame)
    (nc dc : String) : Except Err (Option (List (String × String))) :=
  if link_excel_path_set then
    match build_link_map link_file nc dc with
    | Except.error e => Except.error e
    | Except.ok m => Except.ok (some m)
  else Except.ok none

/-- main.py lines 219-222: re-read table and create the status column, filled
with the empty string, when absent. -/
def addStatusColumn (df : DataFrame) (status_column : String) : DataFrame :=
  if status_column ∈ df.cols then df
  else ⟨df.cols ++ [status_column], df.rows.map (fun r => r ++ [some ""])⟩

/-- main.py line 223, `df.loc[processed_indices, status_column] = status_value`:
set the cell at column position `pos` for every row whose index is listed. -/
def setRowsAt (idxs : List Nat) (pos : Nat) (v : Cell) :
    Nat → List (List Cell) → List (List Cell)
  | _, [] => []
  | i, r :: rs => (if i ∈ idxs then r.set pos v else r) :: setRowsAt idxs pos v (i + 1) rs

/-- main.py lines 207-226, write_status_updates: no file is written when the
index list is empty (`none`); otherwise the table written to the target path.
The wrapper returns the written table. -/
def write_status_updates (df : DataFrame) (processed_indices : List Nat)
    (status_column status_value : String) : Option DataFrame :=
  if processed_indices = [] then none
  else
    let df1 := addStatusColumn df status_column
    match colIndex df1.cols status_column with
    | none => none
    | some pos =>
      some ⟨df1.cols, setRowsAt processed_indices pos (some status_value) 0 df1.rows⟩

/-- Cell of the written table at column `c`, row `i`: `none` when the column
or row does not exist, otherwise the (possibly NaN) cell. -/
def getCell (df : DataFrame) (c : String) (i : Nat) : Option Cell :=
  match colIndex df.cols c with
  | none => none
  | some p =>
    match df.rows.get? i with
    | none => none
    | some r => r.get? p

/-- main.py lines 250-256, the `_either` closure passed to WebDriverWait:
check the worker signal first (only when a process event exists), then the
DOM condition; `none` is the falsy result that keeps the wait polling.
`t` is the poll tick at which the closure runs. -/
def eitherCheck (process_event : Option (Nat → Bool)) (condition : Nat → Bool)
    (t : Nat) : Option String :=
  match process_event with
  | some ev =>
    if ev t then some "process"
    else if condition t then some "dom"
    else none
  | none => if condition t then some "dom" else none

/-- WebDriverWait.until with poll_frequency 1: evaluate the check once per
tick, return its first truthy value, raise TimeoutError (`none`) when the
fuel — the timeout measured in polls — runs out. -/
def pollFrom (check : Nat → Option String) : Nat → Nat → Option String
  | _, 0 => none
  | tick, fuel + 1 =>
    match check tick with
    | some r => some r
    | none => pollFrom check (tick + 1) fuel

/-- main.py lines 245-258, wait_for_completion: poll `_either` from tick 0
until it returns a value or the timeout elapses. -/
def wait_for_completion (process_event : Option (Nat → Bool)) (condition : Nat → Bool)
    (timeout : Nat) : Option String :=
  pollFrom (eitherCheck process_event condition) 0 timeout

/-- The spec's Row Source scenario table: columns ["Topic","Links"], single
row ("AI", "groupX,groupY"). -/
def scenarioTable : DataFrame :=
  ⟨["Topic", "Links"], [[some "AI", some "groupX,groupY"]]⟩

/-- The spec's scenario link map {"groupx": "a.com", "groupy": "b.com"}. -/
def scenarioLinkMap : List (String × String) :=
  [("groupx", "a.com"), ("groupy", "b.com")]

theorem pollFrom_eq_of_checks (check : Nat → Option String) (r : String)
    (hall : ∀ t, check t = none ∨ check t = some r) :
    ∀ (fuel start : Nat), (∃ k, k < fuel ∧ (check (start + k)).isSome = true) →
      pollFrom check start fuel = some r := by
  intro fuel
  induction fuel with
  | zero =>
    rintro start ⟨k, hk, -⟩
    omega
  | succ n ih =>
    rintro start ⟨k, hk, hs⟩
    cases hc : check start with
    | some v =>
      rcases hall start with h0 | h0
      · rw [hc] at h0; cases h0
      · rw [hc] at h0
        simp only [pollFrom, hc]
        exact h0
    | none =>
      simp only [pollFrom, hc]
      apply ih (start + 1)
      match k, hk, hs with
      | 0, _, hs => rw [Nat.add_zero, hc] at hs; cases hs
      | k + 1, hk, hs =>
        exact ⟨k, by omega, by rw [show start + 1 + k = start + (k + 1) by omega]; exact hs⟩

/-- C2: for every input table missing one of the two required columns, the
submission phase stops with ConfigurationError immediately: no browser
interaction (no fill_fields call) happens after the rows are requested and
before the error is raised. -/
theorem c2_missing_column_errors_before_browser
    (df : DataFrame) (c1c c2c d : String) (lm : Option (List (String × String)))
    (h : c1c ∉ df.cols ∨ c2c ∉ df.cols) :
    submitPhase (some df) c1c c2c lm d = ([], some Err.configurationError) := by
  simp only [submitPhase, read_excel_rows, pdReadExcel]
  rw [if_pos h]

/-- Witness for C2: a one-column table lacking the "Links" column. -/
theorem c2_missing_column_errors_before_browser_witness :
    submitPhase (some ⟨["Topic"], [[some "AI"]]⟩) "Topic" "Links" none ","
      = ([], some Err.configurationError) :=
  c2_missing_column_errors_before_browser ⟨["Topic"], [[some "AI"]]⟩ "Topic" "Links" "," none
    (Or.inr (by decide))

/-- C3: whenever the worker's completion signal is set at some poll tick
within the timeout and is set no later than the DOM condition (in particular
when the DOM condition never holds, or when both hold at the same tick),
wait_for_completion returns "process": the signal is checked before the DOM
condition on every poll. -/
theorem c3_signal_wins_when_set_first
    (ev dom : Nat → Bool) (timeout : Nat)
    (hsig : ∃ t, t < timeout ∧ ev t = true)
    (hord : ∀ t, dom t = true → ev t = true) :
    wait_for_completion (some ev) dom timeout = some "process" := by
  apply pollFrom_eq_of_checks _ "process"
  · intro t
    by_cases hev : ev t = true
    · right
      simp [eitherCheck, hev]
    · left
      have hdom : dom t = false := by
        cases hd : dom t
        · rfl
        · exact absurd (hord t hd) hev
      simp [eitherCheck, hev, hdom]
  · obtain ⟨t, ht, hev⟩ := hsig
    exact ⟨t, by omega, by simp [eitherCheck, hev]⟩

/-- Witness for C3: signal and DOM condition both true at tick 0 (same poll
tick), one poll of budget; the result is "process". -/
theorem c3_signal_wins_when_set_first_witness :
    wait_for_completion (some (fun _ => true)) (fun _ => true) 1 = some "process" :=
  c3_signal_wins_when_set_first (fun _ => true) (fun _ => true) 1
    ⟨0, by decide, rfl⟩ (fun _ h => h)

/-- C9: with no worker configured there is no completion signal to consult
(process_event is None, so the `_either` closure short-circuits past the
signal check); if the DOM condition holds at some poll tick within the
timeout, the waiter returns "dom". -/
theorem c9_dom_result_without_worker
    (dom : Nat → Bool) (timeout : Nat)
    (hdom : ∃ t, t < timeout ∧ dom t = true) :
    wait_for_completion none dom timeout = some "dom" := by
  apply pollFrom_eq_of_checks _ "dom"
  · intro t
    cases hd : dom t
    · left
      simp [eitherCheck, hd]
    · right
      simp [eitherCheck, hd]
  · obtain ⟨t, ht, hd⟩ := hdom
    exact ⟨t, by omega, by simp [eitherCheck, hd]⟩

/-- Witness for C9: the DOM condition becomes true at tick 1 within a
3-poll budget and no process event exists. -/
theorem c9_dom_result_without_worker_witness :
    wait_for_completion none (fun t => decide (1 ≤ t)) 3 = some "dom" :=
  c9_dom_result_without_worker (fun t => decide (1 ≤ t)) 3 ⟨1, by decide, by decide⟩

theorem rowTuples_fst (cols : List String) (c1 c2 : String)
    (lm : Option (List (String × String))) (d : String) (idx : Nat) (r : List Cell) :
    ∀ x ∈ rowTuples cols c1 c2 lm d idx r, x.1 = idx := by
  intro x hx
  rcases lm with - | m
  · simp only [rowTuples, List.mem_singleton] at hx
    rw [hx]
  · rcases h2 : rowCell cols r c2 with - | s
    · simp only [rowTuples, h2, List.mem_singleton] at hx
      rw [hx]
    · by_cases hg : groupsOf s d = []
      · simp only [rowTuples, h2, hg, if_pos, List.mem_singleton] at hx
        rw [hx]
      · simp only [rowTuples, h2, if_neg hg, List.mem_map] at hx
        obtain ⟨g, -, hgx⟩ := hx
        rw [← hgx]

theorem readRowsAux_fst_bounds (cols : List String) (c1 c2 : String)
    (lm : Option (List (String × String))) (d : String) :
    ∀ (rows : List (List Cell)) (i : Nat), ∀ x ∈ readRowsAux cols c1 c2 lm d i rows,
      i ≤ x.1 ∧ x.1 < i + rows.length := by
  intro rows
  induction rows with
  | nil => simp [readRowsAux]
  | cons r0 rs ih =>
    intro i x hx
    simp only [readRowsAux, List.mem_append] at hx
    rcases hx with hx | hx
    · have h1 := rowTuples_fst cols c1 c2 lm d i r0 x hx
      simp only [List.length_cons]
      omega
    · have h1 := ih (i + 1) x hx
      simp only [List.length_cons]
      omega

theorem readRowsAux_filter_fst (cols : List String) (c1 c2 : String)
    (lm : Option (List (String × String))) (d : String) :
    ∀ (rows : List (List Cell)) (i j : Nat) (r : List Cell), rows.get? j = some r →
      (readRowsAux cols c1 c2 lm d i rows).filter (fun t => t.1 == i + j)
        = rowTuples cols c1 c2 lm d (i + j) r := by
  intro rows
  induction rows with
  | nil => intro i j r h; cases h
  | cons r0 rs ih =>
    intro i j r h
    cases j with
    | zero =>
      rw [List.get?_cons_zero] at h
      injection h with h
      subst h
      simp only [readRowsAux, List.filter_append, Nat.add_zero]
      have h1 : (rowTuples cols c1 c2 lm d i r0).filter (fun t => t.1 == i)
          = rowTuples cols c1 c2 lm d i r0 := by
        apply List.filter_eq_self.mpr
        intro x hx
        have := rowTuples_fst cols c1 c2 lm d i r0 x hx
        simp [this]
      have h2 : (readRowsAux cols c1 c2 lm d (i + 1) rs).filter (fun t => t.1 == i) = [] := by
        apply List.filter_eq_nil_iff.mpr
        intro x hx
        have := readRowsAux_fst_bounds cols c1 c2 lm d rs (i + 1) x hx
        simp only [beq_iff_eq]
        omega
      rw [h1, h2, List.append_nil]
    | succ j =>
      rw [List.get?_cons_succ] at h
      simp only [readRowsAux, List.filter_append]
      have h1 : (rowTuples cols c1 c2 lm d i r0).filter (fun t => t.1 == i + (j + 1)) = [] := by
        apply List.filter_eq_nil_iff.mpr
        intro x hx
        have := rowTuples_fst cols c1 c2 lm d i r0 x hx
        simp only [beq_iff_eq]
        omega
      rw [h1, List.nil_append, show i + (j + 1) = (i + 1) + j by omega]
      exact ih (i + 1) j r h

theorem readRowsAux_none_map_fst (cols : List String) (c1 c2 : String) (d : String) :
    ∀ (rows : List (List Cell)) (i : Nat),
      (readRowsAux cols c1 c2 none d i rows).map (fun t => t.1) = List.range' i rows.length := by
  intro rows
  induction rows with
  | nil => intro i; simp [readRowsAux]
  | cons r0 rs ih =>
    intro i
    simp only [readRowsAux, List.map_append, List.length_cons, List.range'_succ]
    rw [ih (i + 1)]
    rfl

/-- C1: with a link map supplied, a source row whose second-column text splits
into n >= 1 non-empty group names yields exactly those n tuples — the tuples
of the output carrying that row's index are precisely one per group, with the
mapped domain string (or the raw group name when unmapped); and the spec's
scenario table yields exactly (0,"AI","a.com") then (0,"AI","b.com"). -/
theorem c1_link_map_expands_groups :
    (∀ (df : DataFrame) (c1c c2c d : String) (m : List (String × String))
        (i : Nat) (r : List Cell) (s : String) (l : List (Nat × String × String)),
        df.rows.get? i = some r →
        rowCell df.cols r c2c = some s →
        groupsOf s d ≠ [] →
        read_excel_rows (some df) c1c c2c (some m) d = Except.ok l →
        l.filter (fun t => t.1 == i)
          = (groupsOf s d).map
              (fun g => (i, cellText (rowCell df.cols r c1c), resolveGroup m g)))
    ∧ read_excel_rows (some scenarioTable) "Topic" "Links" (some scenarioLinkMap) ","
        = Except.ok [(0, "AI", "a.com"), (0, "AI", "b.com")] := by
  constructor
  · intro df c1c c2c d m i r s l hrow hcell hg hok
    simp only [read_excel_rows, pdReadExcel] at hok
    by_cases hcols : c1c ∉ df.cols ∨ c2c ∉ df.cols
    · rw [if_pos hcols] at hok; cases hok
    · rw [if_neg hcols] at hok
      injection hok with hok
      have hfilter := readRowsAux_filter_fst df.cols c1c c2c (some m) d df.rows 0 i r hrow
      rw [Nat.zero_add] at hfilter
      rw [← hok, hfilter]
      simp only [rowTuples, hcell, if_neg hg]
  · rfl

/-- Witness for C1: the general part applied to the scenario table. -/
theorem c1_link_map_expands_groups_witness :
    ([((0 : Nat), "AI", "a.com"), (0, "AI", "b.com")].filter (fun t => t.1 == 0))
      = (groupsOf "groupX,groupY" ",").map
          (fun g => (0, cellText (rowCell scenarioTable.cols
              [some "AI", some "groupX,groupY"] "Topic"), resolveGroup scenarioLinkMap g)) :=
  c1_link_map_expands_groups.1 scenarioTable "Topic" "Links" "," scenarioLinkMap 0
    [some "AI", some "groupX,groupY"] "groupX,groupY"
    [(0, "AI", "a.com"), (0, "AI", "b.com")] rfl rfl (by decide) rfl

/-- C4 counterexample: the claim says each index appears in at most one
yielded tuple, but the spec's own scenario yields two tuples both carrying
index 0, so the list of yielded indices is not duplicate-free. -/
theorem c4_counterexample_shared_index :
    read_excel_rows (some scenarioTable) "Topic" "Links" (some scenarioLinkMap) ","
      = Except.ok [(0, "AI", "a.com"), (0, "AI", "b.com")]
    ∧ ¬ ([((0 : Nat), "AI", "a.com"), (0, "AI", "b.com")].map (fun t => t.1)).Nodup :=
  ⟨rfl, by decide⟩

/-- C4 amended: when no link map is supplied the yielded indices are exactly
the source table's row positions in order, hence pairwise distinct; with any
link map every yielded tuple's index is still drawn from the source table's
row positions (but one index may recur when a cell expands into several
groups). -/
theorem c4_amended_unique_indices
    (df : DataFrame) (c1c c2c d : String) (l : List (Nat × String × String))
    (h : read_excel_rows (some df) c1c c2c none d = Except.ok l) :
    l.map (fun t => t.1) = List.range df.rows.length
    ∧ (l.map (fun t => t.1)).Nodup
    ∧ (∀ (lm : Option (List (String × String))) (l2 : List (Nat × String × String)),
        read_excel_rows (some df) c1c c2c lm d = Except.ok l2 →
        ∀ x ∈ l2, x.1 < df.rows.length) := by
  have hmap : l.map (fun t => t.1) = List.range df.rows.length := by
    simp only [read_excel_rows, pdReadExcel] at h
    by_cases hcols : c1c ∉ df.cols ∨ c2c ∉ df.cols
    · rw [if_pos hcols] at h; cases h
    · rw [if_neg hcols] at h
      injection h with h
      rw [← h, readRowsAux_none_map_fst, List.range_eq_range']
  refine ⟨hmap, ?_, ?_⟩
  · rw [hmap]; exact List.nodup_range _
  · intro lm l2 h2 x hx
    simp only [read_excel_rows, pdReadExcel] at h2
    by_cases hcols : c1c ∉ df.cols ∨ c2c ∉ df.cols
    · rw [if_pos hcols] at h2; cases h2
    · rw [if_neg hcols] at h2
      injection h2 with h2
      rw [← h2] at hx
      have := readRowsAux_fst_bounds df.cols c1c c2c lm d df.rows 0 x hx
      omega

/-- Witness for C4 amended: the scenario table read without a link map
yields the single index 0 = range 1. -/
theorem c4_amended_unique_indices_witness :
    ([((0 : Nat), "AI", "groupX,groupY")].map (fun t => t.1))
      = List.range scenarioTable.rows.length :=
  (c4_amended_unique_indices scenarioTable "Topic" "Links" ","
    [(0, "AI", "groupX,groupY")] rfl).1

/-- C6: without a link map, Row Source yields exactly one tuple per source
row and the yielded indices are 0,1,2,... in the table's row order; with a
link map, a row whose second-column cell splits into at least two non-empty
group names contributes exactly len(groups) tuples. -/
theorem c6_tuple_counts :
    (∀ (df : DataFrame) (c1c c2c d : String) (l : List (Nat × String × String)),
        read_excel_rows (some df) c1c c2c none d = Except.ok l →
        l.length = df.rows.length
        ∧ l.map (fun t => t.1) = List.range df.rows.length)
    ∧ (∀ (df : DataFrame) (c1c c2c d : String) (m : List (String × String))
        (i : Nat) (r : List Cell) (s : String) (l : List (Nat × String × String)),
        df.rows.get? i = some r →
        rowCell df.cols r c2c = some s →
        2 ≤ (groupsOf s d).length →
        read_excel_rows (some df) c1c c2c (some m) d = Except.ok l →
        (l.filter (fun t => t.1 == i)).length = (groupsOf s d).length) := by
  constructor
  · intro df c1c c2c d l h
    have hmap : l.map (fun t => t.1) = List.range df.rows.length := by
      simp only [read_excel_rows, pdReadExcel] at h
      by_cases hcols : c1c ∉ df.cols ∨ c2c ∉ df.cols
      · rw [if_pos hcols] at h; cases h
      · rw [if_neg hcols] at h
        injection h with h
        rw [← h, readRowsAux_none_map_fst, List.range_eq_range']
    refine ⟨?_, hmap⟩
    have := congrArg List.length hmap
    simpa using this
  · intro df c1c c2c d m i r s l hrow hcell hglen hok
    simp only [read_excel_rows, pdReadExcel] at hok
    by_cases hcols : c1c ∉ df.cols ∨ c2c ∉ df.cols
    · rw [if_pos hcols] at hok; cases hok
    · rw [if_neg hcols] at hok
      injection hok with hok
      have hfilter := readRowsAux_filter_fst df.cols c1c c2c (some m) d df.rows 0 i r hrow
      rw [Nat.zero_add] at hfilter
      have hg : groupsOf s d ≠ [] := by
        intro hnil
        rw [hnil] at hglen
        simp at hglen
      rw [← hok, hfilter]
      simp only [rowTuples, hcell, if_neg hg, List.length_map]

/-- Witness for C6: the multi-group branch applied to the scenario table. -/
theorem c6_tuple_counts_witness :
    ([((0 : Nat), "AI", "a.com"), (0, "AI", "b.com")].filter (fun t => t.1 == 0)).length
      = (groupsOf "groupX,groupY" ",").length :=
  c6_tuple_counts.2 scenarioTable "Topic" "Links" "," scenarioLinkMap 0
    [some "AI", some "groupX,groupY"] "groupX,groupY"
    [(0, "AI", "a.com"), (0, "AI", "b.com")] rfl rfl (by decide) rfl

/-- C5 counterexample: with the link-map workbook file absent, the link-map
loading step of main (whose guard is always taken, because --link-excel-path
defaults to Path("input/links.xlsx") and a Path object is truthy) propagates
pd.read_excel's FileNotFoundError instead of tolerating the absence; the run
fails.  The column names are the argparse defaults. -/
theorem c5_counterexample_absent_link_map_fails :
    loadLinkMapStep true none "Link Group Name" "Domains"
      = Except.error Err.fileNotFound := rfl

/-- C5 amended: when the link-map table file is absent the run fails —
build_link_map's pd.read_excel raises FileNotFoundError, which the link-map
loading step propagates for every choice of column names; the absence of the
link map is not tolerated.  (Only the never-taken false branch of the guard
would skip loading: the --link-excel-path default makes the guard always
true.) -/
theorem c5_amended_absent_link_map_propagates (nc dc : String) :
    loadLinkMapStep true none nc dc = Except.error Err.fileNotFound
    ∧ loadLinkMapStep false none nc dc = Except.ok none :=
  ⟨rfl, rfl⟩

/-- C7: link-map key normalization is case- and surrounding-whitespace-
insensitive.  Any two strings that agree after stripping surrounding
whitespace and lowercasing have the same normalized key, so a LinkMap lookup
— the keys stored by build_link_map are normalized and read_excel_rows looks
groups up by normalized key — resolves both to the same entry, and when that
entry exists read_excel_rows substitutes the same mapped value for both. -/
theorem c7_normalization_insensitive (s t : String)
    (h : pyLower (pyStrip s) = pyLower (pyStrip t)) :
    _normalize_key s = _normalize_key t
    ∧ (∀ m : List (String × String),
        m.lookup (_normalize_key s) = m.lookup (_normalize_key t))
    ∧ (∀ (m : List (String × String)) (v : String),
        m.lookup (_normalize_key s) = some v →
        resolveGroup m s = resolveGroup m t) := by
  have hk : _normalize_key s = _normalize_key t := h
  refine ⟨hk, fun m => by rw [hk], fun m v hv => ?_⟩
  have hv2 : m.lookup (_normalize_key t) = some v := by rw [← hk]; exact hv
  simp only [resolveGroup, hv, hv2]

/-- Witness for C7: "Group A" and " group a " share the normalized key
"group a" and resolve through a link map to the same entry and value. -/
theorem c7_normalization_insensitive_witness :
    _normalize_key "Group A" = _normalize_key " group a "
    ∧ List.lookup (_normalize_key "Group A") [("group a", "x.example")]
        = List.lookup (_normalize_key " group a ") [("group a", "x.example")]
    ∧ resolveGroup [("group a", "x.example")] "Group A"
        = resolveGroup [("group a", "x.example")] " group a " := by
  have hc := c7_normalization_insensitive "Group A" " group a " (by decide)
  exact ⟨hc.1, hc.2.1 [("group a", "x.example")],
    hc.2.2 [("group a", "x.example")] "x.example" (by decide)⟩

theorem colIndex_spec (c : String) :
    ∀ (cols : List String) (p : Nat), colIndex cols c = some p →
      p < cols.length ∧ cols.get? p = some c := by
  intro cols
  induction cols with
  | nil => intro p h; cases h
  | cons c0 cs ih =>
    intro p h
    by_cases h0 : c0 = c
    · rw [colIndex, if_pos h0] at h
      injection h with h
      subst h
      simp [h0]
    · rw [colIndex, if_neg h0] at h
      cases hci : colIndex cs c with
      | none => rw [hci] at h; cases h
      | some q =>
        rw [hci] at h
        injection h with h
        obtain ⟨hq1, hq2⟩ := ih q hci
        subst h
        simp only [List.length_cons, List.get?_cons_succ]
        exact ⟨by omega, hq2⟩

theorem colIndex_of_mem (c : String) :
    ∀ cols : List String, c ∈ cols → ∃ p, colIndex cols c = some p := by
  intro cols
  induction cols with
  | nil => intro h; cases h
  | cons c0 cs ih =>
    intro h
    by_cases h0 : c0 = c
    · exact ⟨0, by rw [colIndex, if_pos h0]⟩
    · have hm : c ∈ cs := by
        cases h with
        | head => exact absurd rfl h0
        | tail _ h => exact h
      obtain ⟨p, hp⟩ := ih hm
      exact ⟨p + 1, by rw [colIndex, if_neg h0, hp]; rfl⟩

theorem colIndex_append_left (c : String) :
    ∀ (cols l : List String) (p : Nat), colIndex cols c = some p →
      colIndex (cols ++ l) c = some p := by
  intro cols
  induction cols with
  | nil => intro l p h; cases h
  | cons c0 cs ih =>
    intro l p h
    by_cases h0 : c0 = c
    · rw [colIndex, if_pos h0] at h
      rw [List.cons_append, colIndex, if_pos h0]
      exact h
    · rw [colIndex, if_neg h0] at h
      cases hci : colIndex cs c with
      | none => rw [hci] at h; cases h
      | some q =>
        rw [hci] at h
        rw [List.cons_append, colIndex, if_neg h0, ih l q hci]
        exact h

theorem colIndex_append_self (c : String) :
    ∀ cols : List String, c ∉ cols → colIndex (cols ++ [c]) c = some cols.length := by
  intro cols
  induction cols with
  | nil => intro; rw [List.nil_append, colIndex, if_pos rfl]; rfl
  | cons c0 cs ih =>
    intro h
    have h0 : c0 ≠ c := fun he => h (he ▸ List.mem_cons_self c0 cs)
    have hm : c ∉ cs := fun hm => h (List.mem_cons_of_mem c0 hm)
    rw [List.cons_append, colIndex, if_neg h0, ih hm]
    rfl

theorem setRowsAt_get? (idxs : List Nat) (pos : Nat) (v : Cell) :
    ∀ (rows : List (List Cell)) (j k : Nat),
      (setRowsAt idxs pos v j rows).get? k
        = (rows.get? k).map (fun r => if (j + k) ∈ idxs then r.set pos v else r) := by
  intro rows
  induction rows with
  | nil => intro j k; simp [setRowsAt]
  | cons r rs ih =>
    intro j k
    cases k with
    | zero => simp [setRowsAt]
    | succ k =>
      simp only [setRowsAt, List.get?_cons_succ, ih (j + 1) k,
        show j + 1 + k = j + (k + 1) by omega]

theorem setRowsAt_idem (idxs : List Nat) (pos : Nat) (v : Cell) :
    ∀ (rows : List (List Cell)) (j : Nat),
      setRowsAt idxs pos v j (setRowsAt idxs pos v j rows) = setRowsAt idxs pos v j rows := by
  intro rows
  induction rows with
  | nil => intro j; rfl
  | cons r rs ih =>
    intro j
    simp only [setRowsAt, ih (j + 1)]
    by_cases hj : j ∈ idxs
    · simp [hj, List.set_set]
    · simp [hj]

theorem mem_addStatusColumn (df : DataFrame) (sc : String) :
    sc ∈ (addStatusColumn df sc).cols := by
  by_cases h : sc ∈ df.cols
  · simp [addStatusColumn, h]
  · simp [addStatusColumn, h]

theorem addStatusColumn_of_mem (df : DataFrame) (sc : String) (h : sc ∈ df.cols) :
    addStatusColumn df sc = df := by
  simp [addStatusColumn, h]

theorem write_status_unfold (df : DataFrame) (idxs : List Nat) (sc sv : String)
    (df2 : DataFrame) (h : write_status_updates df idxs sc sv = some df2) :
    idxs ≠ [] ∧ ∃ pos, colIndex (addStatusColumn df sc).cols sc = some pos ∧
      df2 = ⟨(addStatusColumn df sc).cols,
             setRowsAt idxs pos (some sv) 0 (addStatusColumn df sc).rows⟩ := by
  by_cases hne : idxs = []
  · rw [write_status_updates, if_pos hne] at h; cases h
  · rw [write_status_updates, if_neg hne] at h
    simp only [] at h
    refine ⟨hne, ?_⟩
    cases hci : colIndex (addStatusColumn df sc).cols sc with
    | none => rw [hci] at h; cases h
    | some pos =>
      rw [hci] at h
      injection h with h
      exact ⟨pos, rfl, h.symm⟩

/-- C8: the Status Writer is idempotent — for every table, non-empty index
collection whose indices address existing rows, status column and status
value, writing a second time over the table produced by the first write
yields that same table (the column is already present and setting the same
cells to the same value changes nothing). -/
theorem c8_status_writer_idempotent (df df2 : DataFrame) (idxs : List Nat) (sc sv : String)
    (hne : idxs ≠ [])
    (hrange : ∀ i ∈ idxs, i < df.rows.length)
    (h : write_status_updates df idxs sc sv = some df2) :
    write_status_updates df2 idxs sc sv = some df2 := by
  obtain ⟨-, pos, hci, hdf2⟩ := write_status_unfold df idxs sc sv df2 h
  have hmem2 : sc ∈ df2.cols := by
    rw [hdf2]
    exact mem_addStatusColumn df sc
  have hadd2 : addStatusColumn df2 sc = df2 := addStatusColumn_of_mem df2 sc hmem2
  have hci2 : colIndex df2.cols sc = some pos := by
    rw [hdf2]
    exact hci
  rw [write_status_updates, if_neg hne]
  simp only [hadd2, hci2]
  rw [hdf2]
  simp only [setRowsAt_idem]

/-- Witness for C8: a one-row table without a status column, written once
and then again. -/
theorem c8_status_writer_idempotent_witness :
    write_status_updates ⟨["Topic", "Status"], [[some "AI", some "Done"]]⟩ [0] "Status" "Done"
      = some ⟨["Topic", "Status"], [[some "AI", some "Done"]]⟩ :=
  c8_status_writer_idempotent ⟨["Topic"], [[some "AI"]]⟩
    ⟨["Topic", "Status"], [[some "AI", some "Done"]]⟩ [0] "Status" "Done"
    (by decide) (by decide) rfl

theorem getCell_of_colIndex (df : DataFrame) (c : String) (p : Nat)
    (hp : colIndex df.cols c = some p) (i : Nat) :
    getCell df c i = (df.rows.get? i).bind (fun r => r.get? p) := by
  simp only [getCell, hp]
  cases df.rows.get? i <;> rfl

theorem get?_map_eq {α β : Type} (f : α → β) (l : List α) (n : Nat) :
    (l.map f).get? n = (l.get? n).map f := by
  simp [List.get?_eq_getElem?]


/-- C10: write_status_updates changes only cells of the status column at the
given indices.  Every cell of every other column is unchanged at every row;
within the status column every row whose index is not given is unchanged —
except that a previously absent status column is created filled with the
empty string — and the targeted cells hold the status value. -/
theorem c10_status_write_frame (df df2 : DataFrame) (idxs : List Nat) (sc sv : String)
    (hwf : ∀ r ∈ df.rows, r.length = df.cols.length)
    (h : write_status_updates df idxs sc sv = some df2) :
    (∀ c, c ≠ sc → c ∈ df.cols → ∀ i, getCell df2 c i = getCell df c i)
    ∧ (∀ i, i < df.rows.length → i ∉ idxs →
        getCell df2 sc i = if sc ∈ df.cols then getCell df sc i else some (some ""))
    ∧ (∀ i, i ∈ idxs → i < df.rows.length → getCell df2 sc i = some (some sv)) := by
  obtain ⟨hne, pos, hci, hdf2⟩ := write_status_unfold df idxs sc sv df2 h
  by_cases hsc : sc ∈ df.cols
  · -- the status column already exists: addStatusColumn is the identity
    have hadd : addStatusColumn df sc = df := addStatusColumn_of_mem df sc hsc
    rw [hadd] at hci hdf2
    obtain ⟨hposlt, hposget⟩ := colIndex_spec sc df.cols pos hci
    have hcols2 : df2.cols = df.cols := by rw [hdf2]
    have hrows2 : df2.rows = setRowsAt idxs pos (some sv) 0 df.rows := by rw [hdf2]
    refine ⟨?_, ?_, ?_⟩
    · intro c hcne hcmem i
      obtain ⟨p, hp⟩ := colIndex_of_mem c df.cols hcmem
      have hpne : pos ≠ p := by
        intro he
        obtain ⟨-, hpget⟩ := colIndex_spec c df.cols p hp
        rw [← he, hposget] at hpget
        injection hpget with hpget
        exact hcne hpget.symm
      rw [getCell_of_colIndex df2 c p (by rw [hcols2]; exact hp) i,
        getCell_of_colIndex df c p hp i, hrows2, setRowsAt_get?]
      cases hrow : df.rows.get? i with
      | none => simp [hrow]
      | some r =>
        simp only [hrow, Option.map_some', Option.some_bind, Nat.zero_add]
        by_cases hi : i ∈ idxs
        · rw [if_pos hi, List.get?_set_ne _ _ hpne]
        · rw [if_neg hi]
    · intro i hilt hi
      rw [if_pos hsc]
      rw [getCell_of_colIndex df2 sc pos (by rw [hcols2]; exact hci) i,
        getCell_of_colIndex df sc pos hci i, hrows2, setRowsAt_get?]
      cases hrow : df.rows.get? i with
      | none => simp [hrow]
      | some r =>
        simp only [hrow, Option.map_some', Option.some_bind, Nat.zero_add]
        rw [if_neg hi]
    · intro i hi hilt
      rw [getCell_of_colIndex df2 sc pos (by rw [hcols2]; exact hci) i,
        hrows2, setRowsAt_get?]
      cases hrow : df.rows.get? i with
      | none =>
        have := List.get?_eq_none.mp hrow
        omega
      | some r =>
        have hrlen : r.length = df.cols.length := hwf r (List.get?_mem hrow)
        simp only [hrow, Option.map_some', Option.some_bind, Nat.zero_add]
        rw [if_pos hi]
        exact List.get?_set_eq_of_lt (some sv)
          (show pos < r.length by rw [hrlen]; exact hposlt)
  · -- the status column is created by appending it to every row
    have hadd : addStatusColumn df sc
        = DataFrame.mk (df.cols ++ [sc]) (df.rows.map (fun r => r ++ [some ""])) := by
      simp [addStatusColumn, hsc]
    rw [hadd] at hci hdf2
    simp only [] at hci
    have hciB : colIndex (df.cols ++ [sc]) sc = some df.cols.length :=
      colIndex_append_self sc df.cols hsc
    have hposval : pos = df.cols.length := by
      rw [hci] at hciB
      exact Option.some.inj hciB
    have hcols2 : df2.cols = df.cols ++ [sc] := by rw [hdf2]
    have hrows2 : df2.rows
        = setRowsAt idxs pos (some sv) 0 (df.rows.map (fun r => r ++ [some ""])) := by
      rw [hdf2]
    refine ⟨?_, ?_, ?_⟩
    · intro c hcne hcmem i
      obtain ⟨p, hp⟩ := colIndex_of_mem c df.cols hcmem
      obtain ⟨hplt, -⟩ := colIndex_spec c df.cols p hp
      have hp2 : colIndex (df.cols ++ [sc]) c = some p :=
        colIndex_append_left c df.cols [sc] p hp
      rw [getCell_of_colIndex df2 c p (by rw [hcols2]; exact hp2) i,
        getCell_of_colIndex df c p hp i, hrows2, setRowsAt_get?, get?_map_eq]
      cases hrow : df.rows.get? i with
      | none => simp [hrow]
      | some r =>
        have hrlen : r.length = df.cols.length := hwf r (List.get?_mem hrow)
        simp only [hrow, Option.map_some', Option.some_bind, Nat.zero_add]
        have happ : (r ++ [some ""]).get? p = r.get? p := by
          rw [List.get?_eq_getElem?, List.get?_eq_getElem?, List.getElem?_append]
          rw [if_pos (show p < r.length by omega)]
        by_cases hi : i ∈ idxs
        · rw [if_pos hi, List.get?_set_ne _ _ (show pos ≠ p by omega), happ]
        · rw [if_neg hi, happ]
    · intro i hilt hi
      rw [if_neg hsc]
      rw [getCell_of_colIndex df2 sc pos (by rw [hcols2]; exact hci) i,
        hrows2, setRowsAt_get?, get?_map_eq]
      cases hrow : df.rows.get? i with
      | none =>
        have := List.get?_eq_none.mp hrow
        omega
      | some r =>
        have hrlen : r.length = df.cols.length := hwf r (List.get?_mem hrow)
        simp only [hrow, Option.map_some', Option.some_bind, Nat.zero_add]
        rw [if_neg hi, hposval, ← hrlen, List.get?_concat_length]
    · intro i hi hilt
      rw [getCell_of_colIndex df2 sc pos (by rw [hcols2]; exact hci) i,
        hrows2, setRowsAt_get?, get?_map_eq]
      cases hrow : df.rows.get? i with
      | none =>
        have := List.get?_eq_none.mp hrow
        omega
      | some r =>
        have hrlen : r.length = df.cols.length := hwf r (List.get?_mem hrow)
        simp only [hrow, Option.map_some', Option.some_bind, Nat.zero_add]
        rw [if_pos hi]
        exact List.get?_set_eq_of_lt (some sv)
          (show pos < (r ++ [some ""]).length by
            simp only [List.length_append, List.length_cons, List.length_nil]
            omega)

/-- Witness for C10: writing "Done" at index 0 of a one-row table creates the
status column and sets the targeted cell. -/
theorem c10_status_write_frame_witness :
    getCell ⟨["Topic", "Status"], [[some "AI", some "Done"]]⟩ "Status" 0 = some (some "Done") :=
  (c10_status_write_frame ⟨["Topic"], [[some "AI"]]⟩
    ⟨["Topic", "Status"], [[some "AI", some "Done"]]⟩ [0] "Status" "Done"
    (by decide) rfl).2.2 0 (by decide) (by decide)
